import Mathlib

/-!
Verification of the report-parsing engine of the stock_page repository.

The parser under scrutiny is `parse_results_dir` in `src/app.py` (the copy the
spec designates as canonical; `src/pages/1_结果解析（txt）.py` holds a second
copy that additionally strips a log-line prefix from every line and sorts by a
different key, and `src/parse_results.py` holds a third, older copy).

The embedding works on `List Char` (one Python `str` character per `Char`;
Python strings are sequences of unicode code points, as are Lean `Char` lists).
Machine integers play no role.  Python's `pd.Timestamp` values are represented
by the captured `YYYY-MM-DD` digit strings themselves: the regex capture format
is fixed-width, so lexicographic order on the strings coincides with the
chronological order pandas uses, and equal strings parse to equal timestamps.

Character-class predicates (`\s`, `\d`, `\w`, `str.strip`) are modelled over
the character sets Python uses; for `\d` and `\w` the model covers the ASCII
range (the repository's report files and the severity tags of its log prefix
are ASCII digits/letters; non-ASCII unicode digits or word characters never
decide any property proved here).
-/

/-! ## Character classes and basic string operations -/

/-- Whitespace characters stripped by Python `str.strip()` and matched by the
regex class `\s` (the unicode whitespace set of `str.isspace`). -/
def isPySpace (c : Char) : Bool :=
  c == ' ' || c == '\t' || c == '\n' || c == '\r' || c == '\x0b' || c == '\x0c' ||
  c == '\x1c' || c == '\x1d' || c == '\x1e' || c == '\x1f' || c == '\x85' || c == '\xa0' ||
  c == '\u1680' || c == '\u2000' || c == '\u2001' || c == '\u2002' || c == '\u2003' ||
  c == '\u2004' || c == '\u2005' || c == '\u2006' || c == '\u2007' || c == '\u2008' ||
  c == '\u2009' || c == '\u200a' || c == '\u2028' || c == '\u2029' || c == '\u202f' ||
  c == '\u205f' || c == '\u3000'

/-- Word characters of the regex class `\w` (letters, digits, underscore). -/
def isWordChar (c : Char) : Bool :=
  c.isAlphanum || c == '_'

/-- Python `str.lstrip()`. -/
def lstrip (cs : List Char) : List Char :=
  cs.dropWhile isPySpace

/-- Python `str.rstrip()`. -/
def rstrip (cs : List Char) : List Char :=
  (cs.reverse.dropWhile isPySpace).reverse

/-- Python `str.strip()`. -/
def pyStrip (cs : List Char) : List Char :=
  lstrip (rstrip cs)

/-- Line-boundary characters of Python `str.splitlines()`. -/
def isLineBreakChar (c : Char) : Bool :=
  c == '\n' || c == '\r' || c == '\x0b' || c == '\x0c' || c == '\x1c' ||
  c == '\x1d' || c == '\x1e' || c == '\x85' || c == '\u2028' || c == '\u2029'

/-- Worker for `pySplitlines`: `acc` is the current line, reversed.  A `\r\n`
pair counts as a single boundary; a trailing boundary produces no empty final
line (Python `str.splitlines()` semantics). -/
def splitlinesGo (acc : List Char) : List Char → List (List Char)
  | [] => [acc.reverse]
  | '\r' :: '\n' :: rest =>
    acc.reverse :: (if rest.isEmpty then [] else splitlinesGo [] rest)
  | c :: rest =>
    if isLineBreakChar c then
      acc.reverse :: (if rest.isEmpty then [] else splitlinesGo [] rest)
    else
      splitlinesGo (c :: acc) rest

/-- Python `str.splitlines()`. -/
def pySplitlines : List Char → List (List Char)
  | [] => []
  | c :: rest => splitlinesGo [] (c :: rest)

/-- Worker for `splitComma`. -/
def splitCommaGo (acc : List Char) : List Char → List (List Char)
  | [] => [acc.reverse]
  | c :: rest =>
    if c = ',' then acc.reverse :: splitCommaGo [] rest
    else splitCommaGo (c :: acc) rest

/-- Python `str.split(",")`: split on every comma, keeping empty pieces. -/
def splitComma (cs : List Char) : List (List Char) :=
  splitCommaGo [] cs

/-- Does `hay` start with `needle`? -/
def startsWithSeq : List Char → List Char → Bool
  | [], _ => true
  | _ :: _, [] => false
  | n :: ns, h :: hs => n == h && startsWithSeq ns hs

/-- Python's substring test `needle in hay`. -/
def containsSeq (needle : List Char) : List Char → Bool
  | [] => startsWithSeq needle []
  | h :: t => startsWithSeq needle (h :: t) || containsSeq needle t

/-! ## Regex engines for the parser's patterns

Each Python pattern used by `src/app.py` is compiled here into a dedicated
matcher.  All the patterns are deterministic: every greedy or lazy
sub-expression is followed by a disjoint character class, so plain
longest-match (`dropWhile`) and first-stop (`captureTo`) scanning reproduces
the backtracking regex semantics exactly. -/

/-- Match a literal string at the head, returning the remainder. -/
def matchLiteral : List Char → List Char → Option (List Char)
  | [], cs => some cs
  | _ :: _, [] => none
  | l :: ls, c :: cs => if c = l then matchLiteral ls cs else none

/-- The lazy capture `(.+?)\]` after at least one character has been consumed
into `acc` (reversed): extend to the first `]`, refusing `\n` (Python `.` does
not match a newline). -/
def captureTo (acc : List Char) : List Char → Option (List Char)
  | [] => none
  | c :: rest =>
    if c = ']' then some acc.reverse
    else if c = '\n' then none
    else captureTo (c :: acc) rest

/-- `HEADER_RE = 选股结果\s*\[(?P<strategy>.+?)\]` attempted at the current
position; returns the captured strategy text. -/
def headerMatchAt (cs : List Char) : Option (List Char) :=
  match matchLiteral "选股结果".data cs with
  | none => none
  | some r1 =>
    match r1.dropWhile isPySpace with
    | '[' :: r3 =>
      match r3 with
      | [] => none
      | c :: r4 => if c = '\n' then none else captureTo [c] r4
    | _ => none

/-- `HEADER_RE.search`: leftmost match. -/
def searchHeader : List Char → Option (List Char)
  | [] => none
  | c :: rest =>
    match headerMatchAt (c :: rest) with
    | some cap => some cap
    | none => searchHeader rest

/-- Match exactly `n` characters of the regex class `\d`, returning them plus
the remainder. -/
def matchDigits : Nat → List Char → Option (List Char × List Char)
  | 0, cs => some ([], cs)
  | _ + 1, [] => none
  | n + 1, c :: cs =>
    if c.isDigit then (matchDigits n cs).map (fun p => (c :: p.1, p.2))
    else none

/-- `TRADE_DATE_RE = 交易日:\s*(?P<date>\d{4}-\d{2}-\d{2})` attempted at the
current position; returns the captured date text. -/
def dateMatchAt (cs : List Char) : Option (List Char) :=
  match matchLiteral "交易日:".data cs with
  | none => none
  | some r1 =>
    match matchDigits 4 (r1.dropWhile isPySpace) with
    | none => none
    | some (y, r2) =>
      match r2 with
      | '-' :: r3 =>
        match matchDigits 2 r3 with
        | none => none
        | some (mo, r4) =>
          match r4 with
          | '-' :: r5 =>
            match matchDigits 2 r5 with
            | none => none
            | some (dd, _) => some (y ++ '-' :: mo ++ '-' :: dd)
          | _ => none
      | _ => none

/-- `TRADE_DATE_RE.search`: leftmost match. -/
def searchDate : List Char → Option (List Char)
  | [] => none
  | c :: rest =>
    match dateMatchAt (c :: rest) with
    | some cap => some cap
    | none => searchDate rest

/-- `COUNT_RE = 符合条件股票数:\s*(?P<count>\d+)` attempted at the current
position.  Only the success of the match is ever consulted. -/
def countMatchAt (cs : List Char) : Bool :=
  match matchLiteral "符合条件股票数:".data cs with
  | none => false
  | some r1 =>
    match r1.dropWhile isPySpace with
    | c :: _ => c.isDigit
    | [] => false

/-- `COUNT_RE.search`: does the pattern occur anywhere in the line? -/
def searchCount : List Char → Bool
  | [] => false
  | c :: rest => countMatchAt (c :: rest) || searchCount rest

/-- `NO_PICK_KEYWORD = "无符合条件股票"`. -/
def noPickChars : List Char :=
  "无符合条件股票".data

/-! ## The data model and the per-file state machine -/

/-- One output row: `(date, strategy, code)`.  The date field holds the
`YYYY-MM-DD` text captured by `TRADE_DATE_RE` (see the header comment). -/
structure HitRecord where
  date : List Char
  strategy : List Char
  code : List Char
deriving DecidableEq, Repr

/-- The three pieces of scan state threaded through a file:
`cur_strategy`, `cur_trade_date`, `expecting_picks` of `src/app.py`. -/
structure ScanState where
  curStrategy : Option (List Char)
  curDate : Option (List Char)
  expectingPicks : Bool
deriving DecidableEq, Repr

/-- Python truthiness of `cur_strategy` (`None` and the empty string are
falsy). -/
def strategyTruthy : Option (List Char) → Bool
  | none => false
  | some s => !s.isEmpty

/-- The initial per-file state. -/
def stInit : ScanState :=
  ⟨none, none, false⟩

/-- One iteration of the line loop of `parse_results_dir` in `src/app.py`,
applied to an already-normalized line (for `src/app.py` the normalization is
`raw.strip()`; the pages copy also strips a log prefix).  Returns the next
state and the rows appended by this line. -/
def stepNorm (st : ScanState) (line : List Char) : ScanState × List HitRecord :=
  match searchHeader line with
  | some cap => (⟨some (pyStrip cap), none, false⟩, [])
  | none =>
    match searchDate line with
    | some d => (⟨st.curStrategy, some d, false⟩, [])
    | none =>
      if searchCount line && strategyTruthy st.curStrategy && st.curDate.isSome then
        (⟨st.curStrategy, st.curDate, true⟩, [])
      else
        match st.curStrategy, st.curDate, st.expectingPicks with
        | some s, some d, true =>
          if s.isEmpty then (st, [])
          else if line.isEmpty then (st, [])
          else if containsSeq noPickChars line then (⟨some s, some d, false⟩, [])
          else
            let codes :=
              if line.contains ',' then
                ((splitComma line).map pyStrip).filter (fun c => !c.isEmpty)
              else if line.isEmpty then [] else [line]
            (⟨some s, some d, false⟩, codes.map (fun c => ⟨d, s, c⟩))
        | _, _, _ => (st, [])

/-- One iteration on a raw line, `src/app.py` variant: `line = raw.strip()`. -/
def stepLine (st : ScanState) (raw : List Char) : ScanState × List HitRecord :=
  stepNorm st (pyStrip raw)

/-- Run a per-line step function over a list of raw lines, collecting rows. -/
def scanLines (step : ScanState → List Char → ScanState × List HitRecord) :
    ScanState → List (List Char) → List HitRecord
  | _, [] => []
  | st, l :: ls =>
    let p := step st l
    p.2 ++ scanLines step p.1 ls

/-- Parse one file's decoded text, `src/app.py` variant. -/
def parseFileApp (content : List Char) : List HitRecord :=
  scanLines stepLine stInit (pySplitlines content)

/-! ## Directory scan, dedup and sort -/

/-- One file of the scanned directory: name and decoded text content.
(`fp.read_text(..., errors="ignore")` never fails, so the decoded text is the
right interface for the model.) -/
structure DirFile where
  name : List Char
  content : List Char
deriving DecidableEq, Repr

/-- Lexicographic order on character lists (unicode code-point order), the
order pandas uses to compare Python strings. -/
def leChars : List Char → List Char → Bool
  | [], _ => true
  | _ :: _, [] => false
  | a :: as, b :: bs =>
    if a < b then true
    else if b < a then false
    else leChars as bs

/-- The glob pattern `*.txt` of `results_dir.glob("*.txt")`: any name ending
in `.txt`.  `pathlib.Path.glob` matches with fnmatch semantics, so `*` also
matches names with a leading dot (hidden files are included, unlike with the
`glob` module). -/
def globTxt (name : List Char) : Bool :=
  match name.reverse with
  | 't' :: 'x' :: 't' :: '.' :: _ => true
  | _ => false

/-- `sorted(...)` on paths compares their name strings. -/
def fileLe (a b : DirFile) : Prop :=
  leChars a.name b.name = true

instance : DecidableRel fileLe := fun a b =>
  inferInstanceAs (Decidable (leChars a.name b.name = true))

/-- The sort key of `src/app.py`: `sort_values(["code", "date", "strategy"])`,
ascending and lexicographic. -/
def keyLe (x y : HitRecord) : Bool :=
  if x.code = y.code then
    if x.date = y.date then leChars x.strategy y.strategy
    else leChars x.date y.date
  else leChars x.code y.code

/-- Propositional form of `keyLe`. -/
def HitLe (x y : HitRecord) : Prop :=
  keyLe x y = true

instance : DecidableRel HitLe := fun x y =>
  inferInstanceAs (Decidable (keyLe x y = true))

/-- `parse_results_dir` of `src/app.py`.  A directory is `none` (the path does
not exist) or the list of its files.  The pipeline is: glob `*.txt`, sort the
matching files by name, run the per-file state machine over each file's lines,
pool the rows, and — when any rows exist — drop exact-duplicate triples and
sort by `(code, date, strategy)`.  (`drop_duplicates` keeps one copy of each
exact-duplicate triple and `sort_values` is applied to all-distinct rows, so
the result is the unique sorted enumeration of the distinct rows; `dedup`
followed by a sort reproduces it exactly.) -/
def parse_results_dir (dir : Option (List DirFile)) : List HitRecord :=
  match dir with
  | none => []
  | some files =>
    let globbed := files.filter (fun f => globTxt f.name)
    let sortedFiles := List.insertionSort fileLe globbed
    let rows := (sortedFiles.map (fun f => parseFileApp f.content)).flatten
    if rows.isEmpty then []
    else List.insertionSort HitLe rows.dedup

/-! ## Concrete inputs used by the claims -/

/-- Scenario 1 of the spec: the content of `20240115.txt`. -/
def contentC1 : List Char :=
  ("选股结果 [MACD金叉]\n交易日: 2024-01-15\n符合条件股票数: 2\n000001, 600000").data

/-- Scenario 1 directory: exactly one file `20240115.txt`. -/
def dirC1 : Option (List DirFile) :=
  some [⟨"20240115.txt".data, contentC1⟩]

/-- A directory whose only file is named `notadate.txt` but carries valid
report content. -/
def dirC3 : Option (List DirFile) :=
  some [⟨"notadate.txt".data, contentC1⟩]

/-- A directory whose only file is the hidden `.hidden.txt` with valid report
content; `pathlib.Path.glob("*.txt")` matches it. -/
def dirC3hidden : Option (List DirFile) :=
  some [⟨".hidden.txt".data, contentC1⟩]

/-- Scenario 2 of the spec: the pick line is `000001` alone (no comma). -/
def contentC6 : List Char :=
  ("选股结果 [MACD金叉]\n交易日: 2024-01-15\n符合条件股票数: 2\n000001").data

/-- Scenario 2 directory. -/
def dirC6 : Option (List DirFile) :=
  some [⟨"20240115.txt".data, contentC6⟩]

/-- A file whose pick area holds only the no-pick marker, followed by a stray
code line. -/
def contentC8 : List Char :=
  ("选股结果 [MACD金叉]\n交易日: 2024-01-15\n符合条件股票数: 0\n无符合条件股票\n000001").data

/-- Directory for the no-pick-marker scenario. -/
def dirC8 : Option (List DirFile) :=
  some [⟨"20240115.txt".data, contentC8⟩]

/-- A file with two consecutive bare code lines after one count line. -/
def contentC9 : List Char :=
  ("选股结果 [MACD金叉]\n交易日: 2024-01-15\n符合条件股票数: 2\n000001\n600000").data

/-- Directory for the one-shot pick-consumption scenario. -/
def dirC9 : Option (List DirFile) :=
  some [⟨"20240115.txt".data, contentC9⟩]

/-- The terse strategy-header spelling `选股结果 [S]`. -/
def terseHeader (S : List Char) : List Char :=
  "选股结果 [".data ++ (S ++ [']'])

/-- The banner strategy-header spelling `==== 选股结果 [S] ====` with `k`
leading and `m` trailing equals signs. -/
def bannerHeader (k m : Nat) (S : List Char) : List Char :=
  List.replicate k '=' ++ (" 选股结果 [".data ++ (S ++ ("] ".data ++ List.replicate m '=')))

/-! ## The pages variant: log-prefix stripping

`src/pages/1_结果解析（txt）.py` runs the same state machine but first strips
the log-line prefix `LOG_PREFIX_RE =
^\\d{4}-\\d{2}-\\d{2}\\s+\\d{2}:\\d{2}:\\d{2},\\d{3}\\s+-\\s+\\w+\\s+-\\s+` from each
stripped line (`re.sub` with an anchored pattern removes at most one leading
occurrence).  Each greedy piece is followed by a disjoint class, so
longest-match scanning is exact. -/

/-- Consume one expected character. -/
def chompChar (ch : Char) : List Char → Option (List Char)
  | c :: rest => if c = ch then some rest else none
  | [] => none

/-- Consume one `\d`. -/
def digit1 : List Char → Option (List Char)
  | c :: rest => if c.isDigit then some rest else none
  | [] => none

/-- Consume `\s+` (greedy). -/
def ws1 : List Char → Option (List Char)
  | c :: rest => if isPySpace c then some (rest.dropWhile isPySpace) else none
  | [] => none

/-- Consume `\w+` (greedy). -/
def word1 : List Char → Option (List Char)
  | c :: rest => if isWordChar c then some (rest.dropWhile isWordChar) else none
  | [] => none

/-- Consume exactly `n` characters of `\d`. -/
def digitN : Nat → List Char → Option (List Char)
  | 0, cs => some cs
  | n + 1, cs => (digit1 cs).bind (digitN n)

/-- The date piece `\\d{4}-\\d{2}-\\d{2}\\s+` of `LOG_PREFIX_RE`. -/
def logPfxDatePart (cs : List Char) : Option (List Char) := do
  let a1 ← digitN 4 cs
  let a2 ← chompChar '-' a1
  let a3 ← digitN 2 a2
  let a4 ← chompChar '-' a3
  let a5 ← digitN 2 a4
  ws1 a5

/-- The time piece `\\d{2}:\\d{2}:\\d{2},\\d{3}\\s+` of `LOG_PREFIX_RE`. -/
def logPfxTimePart (cs : List Char) : Option (List Char) := do
  let a1 ← digitN 2 cs
  let a2 ← chompChar ':' a1
  let a3 ← digitN 2 a2
  let a4 ← chompChar ':' a3
  let a5 ← digitN 2 a4
  let a6 ← chompChar ',' a5
  let a7 ← digitN 3 a6
  ws1 a7

/-- The severity piece `-\\s+\\w+\\s+-\\s+` of `LOG_PREFIX_RE`. -/
def logPfxSepPart (cs : List Char) : Option (List Char) := do
  let a1 ← chompChar '-' cs
  let a2 ← ws1 a1
  let a3 ← word1 a2
  let a4 ← ws1 a3
  let a5 ← chompChar '-' a4
  ws1 a5

/-- `LOG_PREFIX_RE` matched at the start of the line; returns the remainder
after the prefix. -/
def matchLogPfx (cs : List Char) : Option (List Char) := do
  let a1 ← logPfxDatePart cs
  let a2 ← logPfxTimePart a1
  logPfxSepPart a2

/-- `LOG_PREFIX_RE.sub('', line)`: remove the anchored prefix if present. -/
def stripLogPfx (cs : List Char) : List Char :=
  match matchLogPfx cs with
  | some rest => rest
  | none => cs

/-- Line normalization of the pages copy:
`line = raw.strip()` then `line = LOG_PREFIX_RE.sub('', line).strip()`. -/
def normalizePages (raw : List Char) : List Char :=
  pyStrip (stripLogPfx (pyStrip raw))

/-- One iteration of the pages copy's line loop on a raw line. -/
def stepLinePages (st : ScanState) (raw : List Char) : ScanState × List HitRecord :=
  stepNorm st (normalizePages raw)

/-- The rows the pages copy collects from one file's lines. -/
def parseLinesPages (lines : List (List Char)) : List HitRecord :=
  scanLines stepLinePages stInit lines

/-- The spec's example log-line prefix. -/
def logPfx : List Char :=
  "2024-01-15 10:30:45,123 - INFO - ".data

/-- A report whose pick area starts with a blank line (blank lines before the
code list are tolerated by the parser). -/
def linesC5 : List (List Char) :=
  ["选股结果 [MACD金叉]".data, "交易日: 2024-01-15".data,
   "符合条件股票数: 1".data, "".data, "000001".data]

/-- The same report without the blank line, every line non-blank and not
itself starting with a log prefix. -/
def linesC5ok : List (List Char) :=
  ["选股结果 [MACD金叉]".data, "交易日: 2024-01-15".data,
   "符合条件股票数: 1".data, "000001".data]

/-! ## Order lemmas for the sort keys -/

/-- Lexicographic order on character lists is total. -/
theorem leChars_total : ∀ (a b : List Char), leChars a b = true ∨ leChars b a = true
  | [], _ => Or.inl rfl
  | _ :: _, [] => Or.inr rfl
  | a :: as, b :: bs => by
    by_cases h1 : a < b
    · left; simp [leChars, h1]
    · by_cases h2 : b < a
      · right; simp [leChars, h2]
      · have hab : a = b := le_antisymm (not_lt.mp h2) (not_lt.mp h1)
        subst hab
        rcases leChars_total as bs with h | h
        · left; simp [leChars, h1, h]
        · right; simp [leChars, h1, h]

/-- Lexicographic order on character lists is transitive. -/
theorem leChars_trans : ∀ (a b c : List Char),
    leChars a b = true → leChars b c = true → leChars a c = true
  | [], _, _, _, _ => rfl
  | _ :: _, [], _, h1, _ => by simp [leChars] at h1
  | _ :: _, _ :: _, [], _, h2 => by simp [leChars] at h2
  | a :: as, b :: bs, c :: cs, h1, h2 => by
    simp only [leChars] at h1 h2 ⊢
    by_cases hab : a < b
    · by_cases hbc : b < c
      · simp [lt_trans hab hbc]
      · by_cases hcb : c < b
        · simp [hbc, hcb] at h2
        · have hbceq : b = c := le_antisymm (not_lt.mp hcb) (not_lt.mp hbc)
          subst hbceq
          simp [hab]
    · by_cases hba : b < a
      · simp [hab, hba] at h1
      · have habeq : a = b := le_antisymm (not_lt.mp hba) (not_lt.mp hab)
        subst habeq
        simp only [lt_irrefl, if_false] at h1
        by_cases hac : a < c
        · simp [hac]
        · by_cases hca : c < a
          · simp [hac, hca] at h2
          · have haceq : a = c := le_antisymm (not_lt.mp hca) (not_lt.mp hac)
            subst haceq
            simp only [lt_irrefl, if_false] at h2 ⊢
            exact leChars_trans as bs cs h1 h2

/-- Lexicographic order on character lists is antisymmetric. -/
theorem leChars_antisymm : ∀ (a b : List Char),
    leChars a b = true → leChars b a = true → a = b
  | [], [], _, _ => rfl
  | [], _ :: _, _, h2 => by simp [leChars] at h2
  | _ :: _, [], h1, _ => by simp [leChars] at h1
  | a :: as, b :: bs, h1, h2 => by
    simp only [leChars] at h1 h2
    by_cases hab : a < b
    · simp [hab, lt_asymm hab] at h2
    · by_cases hba : b < a
      · simp [hab, hba] at h1
      · have habeq : a = b := le_antisymm (not_lt.mp hba) (not_lt.mp hab)
        subst habeq
        simp only [lt_irrefl, if_false] at h1 h2
        rw [leChars_antisymm as bs h1 h2]

/-- The record key order `(code, date, strategy)` is total. -/
theorem keyLe_total (x y : HitRecord) : keyLe x y = true ∨ keyLe y x = true := by
  unfold keyLe
  by_cases hc : x.code = y.code
  · rw [if_pos hc, if_pos hc.symm]
    by_cases hd : x.date = y.date
    · rw [if_pos hd, if_pos hd.symm]
      exact leChars_total x.strategy y.strategy
    · rw [if_neg hd, if_neg (Ne.symm hd)]
      exact leChars_total x.date y.date
  · rw [if_neg hc, if_neg (Ne.symm hc)]
    exact leChars_total x.code y.code

/-- The record key order `(code, date, strategy)` is transitive. -/
theorem keyLe_trans (x y z : HitRecord)
    (h1 : keyLe x y = true) (h2 : keyLe y z = true) : keyLe x z = true := by
  unfold keyLe at h1 h2 ⊢
  by_cases hc1 : x.code = y.code
  · by_cases hc2 : y.code = z.code
    · have hc3 : x.code = z.code := hc1.trans hc2
      rw [if_pos hc1] at h1
      rw [if_pos hc2] at h2
      rw [if_pos hc3]
      by_cases hd1 : x.date = y.date
      · by_cases hd2 : y.date = z.date
        · have hd3 : x.date = z.date := hd1.trans hd2
          rw [if_pos hd1] at h1
          rw [if_pos hd2] at h2
          rw [if_pos hd3]
          exact leChars_trans _ _ _ h1 h2
        · have hd3 : x.date ≠ z.date := hd1 ▸ hd2
          rw [if_pos hd1] at h1
          rw [if_neg hd2] at h2
          rw [if_neg hd3, hd1]
          exact h2
      · by_cases hd2 : y.date = z.date
        · have hd3 : x.date ≠ z.date := fun h => hd1 (h.trans hd2.symm)
          rw [if_neg hd1] at h1
          rw [if_neg hd3, ← hd2]
          exact h1
        · by_cases hd3 : x.date = z.date
          · exfalso
            rw [if_neg hd1] at h1
            rw [if_neg hd2] at h2
            rw [← hd3] at h2
            exact hd1 (leChars_antisymm _ _ h1 h2)
          · rw [if_neg hd1] at h1
            rw [if_neg hd2] at h2
            rw [if_neg hd3]
            exact leChars_trans _ _ _ h1 h2
    · have hc3 : x.code ≠ z.code := hc1 ▸ hc2
      rw [if_neg hc2] at h2
      rw [if_neg hc3, hc1]
      exact h2
  · by_cases hc2 : y.code = z.code
    · have hc3 : x.code ≠ z.code := fun h => hc1 (h.trans hc2.symm)
      rw [if_neg hc1] at h1
      rw [if_neg hc3, ← hc2]
      exact h1
    · by_cases hc3 : x.code = z.code
      · exfalso
        rw [if_neg hc1] at h1
        rw [if_neg hc2] at h2
        rw [← hc3] at h2
        exact hc1 (leChars_antisymm _ _ h1 h2)
      · rw [if_neg hc1] at h1
        rw [if_neg hc2] at h2
        rw [if_neg hc3]
        exact leChars_trans _ _ _ h1 h2

/-- C1: parse of the scenario-1 directory yields exactly the two records
(2024-01-15, MACD金叉, 000001) and (2024-01-15, MACD金叉, 600000). -/
theorem parse_scenario1_exact :
    parse_results_dir dirC1 =
      [⟨"2024-01-15".data, "MACD金叉".data, "000001".data⟩,
       ⟨"2024-01-15".data, "MACD金叉".data, "600000".data⟩] := by
  decide

/-- C4: a path that names no existing directory parses to the empty table; the
parse is a total function, so no exception is possible. -/
theorem parse_missing_dir_empty :
    parse_results_dir none = [] := rfl

/-- C2: for every input directory, the parsed table has no two records equal in
all three fields, and is non-decreasing under the ascending key ordering
`(code, date, strategy)`. -/
theorem parse_nodup_sorted (dir : Option (List DirFile)) :
    (parse_results_dir dir).Nodup ∧ List.Sorted HitLe (parse_results_dir dir) := by
  haveI : IsTotal HitRecord HitLe := ⟨fun a b => (keyLe_total a b).imp id id⟩
  haveI : IsTrans HitRecord HitLe := ⟨fun a b c h1 h2 => keyLe_trans a b c h1 h2⟩
  cases dir with
  | none => exact ⟨List.nodup_nil, List.sorted_nil⟩
  | some files =>
    unfold parse_results_dir
    by_cases h :
        (((List.insertionSort fileLe (files.filter (fun f => globTxt f.name))).map
          (fun f => parseFileApp f.content)).flatten).isEmpty
    · simp only [h, if_true]
      exact ⟨List.nodup_nil, List.sorted_nil⟩
    · simp only [h, if_false]
      constructor
      · exact ((List.perm_insertionSort HitLe _).nodup_iff).mpr (List.nodup_dedup _)
      · exact List.sorted_insertionSort HitLe _

/-- C3 counterexample: the claim says a file named `notadate.txt` contributes
no rows, but `parse_results_dir` globs every `*.txt` file (the 8-digit
`TXT_DATE_RE` filter is used only by `list_result_dates`), so a directory
holding only `notadate.txt` with valid report content parses to a non-empty
table — as does one holding only the hidden `.hidden.txt`, which pathlib's
fnmatch-based glob also matches. -/
theorem parse_consumes_notadate_txt :
    parse_results_dir dirC3 ≠ [] ∧ parse_results_dir dirC3hidden ≠ [] := by
  decide

/-- C3 amended: parse consumes exactly the files matched by the `*.txt` glob —
every file whose name ends in `.txt`, dot-leading names included; appending a
file whose name does not end in `.txt` leaves the output unchanged (and causes
no failure). -/
theorem parse_ignores_nonglob_files (fs : List DirFile) (f : DirFile)
    (h : globTxt f.name = false) :
    parse_results_dir (some (fs ++ [f])) = parse_results_dir (some fs) := by
  have hf : ([f] : List DirFile).filter (fun g => globTxt g.name) = [] := by
    simp [List.filter_cons, h]
  simp only [parse_results_dir, List.filter_append, hf, List.append_nil]

/-- Witness for `parse_ignores_nonglob_files` at a concrete directory. -/
theorem parse_ignores_nonglob_files_witness :
    globTxt ("prices.csv".data) = false ∧
      parse_results_dir
          (some ([⟨"20240115.txt".data, contentC1⟩] ++ [⟨"prices.csv".data, contentC1⟩])) =
        parse_results_dir (some [⟨"20240115.txt".data, contentC1⟩]) :=
  ⟨by decide, parse_ignores_nonglob_files _ _ (by decide)⟩

/-- C6: a pick line with no comma is consumed whole — the entire trimmed line
becomes the single code of one record, and the scenario-2 file (pick line
`000001` alone) parses to exactly the single record
(2024-01-15, MACD金叉, 000001). -/
theorem no_comma_pick_single_code (s d raw : List Char)
    (hs : s ≠ [])
    (hne : pyStrip raw ≠ [])
    (hh : searchHeader (pyStrip raw) = none)
    (hdt : searchDate (pyStrip raw) = none)
    (hcnt : searchCount (pyStrip raw) = false)
    (hmk : containsSeq noPickChars (pyStrip raw) = false)
    (hcm : (pyStrip raw).contains ',' = false) :
    stepLine ⟨some s, some d, true⟩ raw =
      (⟨some s, some d, false⟩, [⟨d, s, pyStrip raw⟩]) ∧
    parse_results_dir dirC6 = [⟨"2024-01-15".data, "MACD金叉".data, "000001".data⟩] := by
  constructor
  · have hsE : s.isEmpty = false := by
      cases s with
      | nil => exact absurd rfl hs
      | cons a t => rfl
    have hlE : (pyStrip raw).isEmpty = false := by
      cases hp : pyStrip raw with
      | nil => exact absurd hp hne
      | cons a t => rfl
    have hcm2 : ',' ∉ pyStrip raw := by simpa using hcm
    unfold stepLine stepNorm
    rw [hh, hdt, hcnt]
    simp [hsE, hlE, hmk, hcm2]
  · decide

/-- Witness for `no_comma_pick_single_code` at the scenario-2 pick line. -/
theorem no_comma_pick_single_code_witness :
    ("MACD金叉".data ≠ ([] : List Char)) ∧
    (pyStrip "000001".data ≠ []) ∧
    (searchHeader (pyStrip "000001".data) = none) ∧
    (searchDate (pyStrip "000001".data) = none) ∧
    (searchCount (pyStrip "000001".data) = false) ∧
    (containsSeq noPickChars (pyStrip "000001".data) = false) ∧
    ((pyStrip "000001".data).contains ',' = false) ∧
    (stepLine ⟨some "MACD金叉".data, some "2024-01-15".data, true⟩ "000001".data =
      (⟨some "MACD金叉".data, some "2024-01-15".data, false⟩,
       [⟨"2024-01-15".data, "MACD金叉".data, pyStrip "000001".data⟩]) ∧
     parse_results_dir dirC6 = [⟨"2024-01-15".data, "MACD金叉".data, "000001".data⟩]) :=
  ⟨by decide, by decide, by decide, by decide, by decide, by decide, by decide,
   no_comma_pick_single_code _ _ _ (by decide) (by decide) (by decide) (by decide)
     (by decide) (by decide) (by decide)⟩

/-- C8: a no-pick-marker line in pick position yields no records and clears
`expecting_picks`; a file whose pick area holds only the marker (followed by a
stray code line) parses to zero records. -/
theorem no_pick_marker_zero_records (s d : List Char) (hs : s ≠ []) :
    stepLine ⟨some s, some d, true⟩ noPickChars = (⟨some s, some d, false⟩, []) ∧
    parse_results_dir dirC8 = [] := by
  constructor
  · have hsE : s.isEmpty = false := by
      cases s with
      | nil => exact absurd rfl hs
      | cons a t => rfl
    have hh : searchHeader (pyStrip noPickChars) = none := by decide
    have hdt : searchDate (pyStrip noPickChars) = none := by decide
    have hcnt : searchCount (pyStrip noPickChars) = false := by decide
    have hmk : containsSeq noPickChars (pyStrip noPickChars) = true := by decide
    have hlE : (pyStrip noPickChars).isEmpty = false := by decide
    unfold stepLine stepNorm
    rw [hh, hdt, hcnt]
    simp [hsE, hlE, hmk]
  · decide

/-- Witness for `no_pick_marker_zero_records`. -/
theorem no_pick_marker_zero_records_witness :
    ("MACD金叉".data ≠ ([] : List Char)) ∧
    (stepLine ⟨some "MACD金叉".data, some "2024-01-15".data, true⟩ noPickChars =
      (⟨some "MACD金叉".data, some "2024-01-15".data, false⟩, []) ∧
     parse_results_dir dirC8 = []) :=
  ⟨by decide, no_pick_marker_zero_records _ _ (by decide)⟩

/-- C9: pick consumption is one-shot — processing any non-blank line in pick
position (other than a header, date or count line) clears `expecting_picks`,
so the second bare code line of the scenario file yields no records and the
file parses to the single record from the first code line. -/
theorem pick_consumption_one_shot (s d raw : List Char)
    (hs : s ≠ [])
    (hne : pyStrip raw ≠ [])
    (hh : searchHeader (pyStrip raw) = none)
    (hdt : searchDate (pyStrip raw) = none)
    (hcnt : searchCount (pyStrip raw) = false) :
    (stepLine ⟨some s, some d, true⟩ raw).1.expectingPicks = false ∧
    parse_results_dir dirC9 = [⟨"2024-01-15".data, "MACD金叉".data, "000001".data⟩] := by
  constructor
  · have hsE : s.isEmpty = false := by
      cases s with
      | nil => exact absurd rfl hs
      | cons a t => rfl
    have hlE : (pyStrip raw).isEmpty = false := by
      cases hp : pyStrip raw with
      | nil => exact absurd hp hne
      | cons a t => rfl
    unfold stepLine stepNorm
    rw [hh, hdt, hcnt]
    by_cases hmk : containsSeq noPickChars (pyStrip raw) = true
    · simp [hsE, hlE, hmk]
    · rw [Bool.not_eq_true] at hmk
      by_cases hcm : (pyStrip raw).contains ',' = true
      · simp [hsE, hlE, hmk, hcm]
      · rw [Bool.not_eq_true] at hcm
        have hcm2 : ',' ∉ pyStrip raw := by simpa using hcm
        simp [hsE, hlE, hmk, hcm2]
  · decide

/-- Witness for `pick_consumption_one_shot` at the second code line. -/
theorem pick_consumption_one_shot_witness :
    ("MACD金叉".data ≠ ([] : List Char)) ∧
    (pyStrip "600000".data ≠ []) ∧
    (searchHeader (pyStrip "600000".data) = none) ∧
    (searchDate (pyStrip "600000".data) = none) ∧
    (searchCount (pyStrip "600000".data) = false) ∧
    ((stepLine ⟨some "MACD金叉".data, some "2024-01-15".data, true⟩
        "600000".data).1.expectingPicks = false ∧
     parse_results_dir dirC9 = [⟨"2024-01-15".data, "MACD金叉".data, "000001".data⟩]) :=
  ⟨by decide, by decide, by decide, by decide, by decide,
   pick_consumption_one_shot _ _ _ (by decide) (by decide) (by decide) (by decide) (by decide)⟩

/-- A successful `dateMatchAt` capture is never the empty string. -/
theorem dateMatchAt_ne_nil {cs d : List Char} (h : dateMatchAt cs = some d) : d ≠ [] := by
  unfold dateMatchAt at h
  repeat' split at h
  all_goals try exact Option.noConfusion h
  injection h with h
  subst h
  simp

/-- A successful `searchDate` capture is never the empty string. -/
theorem searchDate_ne_nil : ∀ (cs : List Char) {d : List Char},
    searchDate cs = some d → d ≠ []
  | [], _, h => by simp [searchDate] at h
  | c :: rest, d, h => by
    unfold searchDate at h
    split at h
    · rename_i cap hm
      injection h with h
      subst h
      exact dateMatchAt_ne_nil hm
    · exact searchDate_ne_nil rest h

/-- The scan state's tracked date stays non-empty across a step: the new date
is `none`, a fresh `searchDate` capture, or the old date. -/
theorem stepNorm_curDate (st : ScanState) (line : List Char) :
    (stepNorm st line).1.curDate = none ∨
    (∃ d, searchDate line = some d ∧ (stepNorm st line).1.curDate = some d) ∨
    (stepNorm st line).1.curDate = st.curDate := by
  unfold stepNorm
  split
  · left; rfl
  · split
    · rename_i d hd
      right; left; exact ⟨d, hd, rfl⟩
    · split
      · right; right; rfl
      · split
        · rename_i s d heq1 heq2 heq3
          right; right
          split_ifs <;> simp [heq2]
        · right; right; rfl

/-- Every row emitted by a single step has all three fields non-empty,
provided the tracked date is non-empty. -/
theorem stepNorm_rows_ok (st : ScanState) (line : List Char)
    (hst : ∀ x, st.curDate = some x → x ≠ []) :
    ∀ r ∈ (stepNorm st line).2, r.date ≠ [] ∧ r.strategy ≠ [] ∧ r.code ≠ [] := by
  unfold stepNorm
  split
  · intro r hr; simp at hr
  · split
    · intro r hr; simp at hr
    · split
      · intro r hr; simp at hr
      · split
        · rename_i s d heq1 heq2 heq3
          have hd : d ≠ [] := hst d heq2
          intro r hr
          by_cases hse : s.isEmpty = true
          · simp [hse] at hr
          · by_cases hle : line.isEmpty = true
            · simp [hse, hle] at hr
            · by_cases hmk : containsSeq noPickChars line = true
              · simp [hse, hle, hmk] at hr
              · have hsne : s ≠ [] := by
                  intro hnil; rw [hnil] at hse; exact hse rfl
                simp [hse, hle, hmk] at hr
                obtain ⟨c, hc, rfl⟩ := hr
                refine ⟨hd, hsne, ?_⟩
                by_cases hcm : (',' ∈ line)
                · simp [hcm] at hc
                  obtain ⟨⟨piece, hpiece, hps⟩, hcE⟩ := hc
                  exact fun hnil => hcE hnil
                · simp [hcm, hle] at hc
                  subst hc
                  intro hnil
                  exact hle (by simp [show c = ([] : List Char) from hnil])
        · intro r hr; simp at hr

/-- Every row collected by the line scan has all fields non-empty. -/
theorem scanLines_rows_ok : ∀ (lines : List (List Char)) (st : ScanState),
    (∀ x, st.curDate = some x → x ≠ []) →
    ∀ r ∈ scanLines stepLine st lines, r.date ≠ [] ∧ r.strategy ≠ [] ∧ r.code ≠ []
  | [], _, _, r, hr => by simp [scanLines] at hr
  | l :: ls, st, hst, r, hr => by
    have hnext : ∀ x, (stepLine st l).1.curDate = some x → x ≠ [] := by
      intro x hx
      rcases stepNorm_curDate st (pyStrip l) with h | ⟨d, hd, h⟩ | h
      · rw [stepLine, h] at hx; cases hx
      · rw [stepLine, h] at hx
        injection hx with hx
        subst hx
        exact searchDate_ne_nil _ hd
      · rw [stepLine, h] at hx; exact hst x hx
    rw [scanLines] at hr
    rcases List.mem_append.mp hr with hr | hr
    · exact stepNorm_rows_ok st (pyStrip l) hst r hr
    · exact scanLines_rows_ok ls _ hnext r hr

/-- C10: every row of the output table has all three fields non-empty — no
null/empty date, no empty strategy, no empty code. -/
theorem parse_rows_fields_nonempty (dir : Option (List DirFile)) (r : HitRecord)
    (h : r ∈ parse_results_dir dir) :
    r.date ≠ [] ∧ r.strategy ≠ [] ∧ r.code ≠ [] := by
  cases dir with
  | none => simp [parse_results_dir] at h
  | some files =>
    simp only [parse_results_dir] at h
    split at h
    · simp at h
    · rw [List.mem_insertionSort, List.mem_dedup, List.mem_flatten] at h
      obtain ⟨l, hl, hr⟩ := h
      rw [List.mem_map] at hl
      obtain ⟨f, hf, rfl⟩ := hl
      unfold parseFileApp at hr
      exact scanLines_rows_ok _ stInit (by intro x hx; cases hx) r hr

/-- Witness for `parse_rows_fields_nonempty` at the scenario-1 directory. -/
theorem parse_rows_fields_nonempty_witness :
    ((⟨"2024-01-15".data, "MACD金叉".data, "000001".data⟩ : HitRecord) ∈
        parse_results_dir dirC1) ∧
    (("2024-01-15".data ≠ ([] : List Char)) ∧ ("MACD金叉".data ≠ ([] : List Char)) ∧
      ("000001".data ≠ ([] : List Char))) :=
  ⟨by decide,
   parse_rows_fields_nonempty dirC1 ⟨"2024-01-15".data, "MACD金叉".data, "000001".data⟩
     (by decide)⟩

/-- The lazy capture runs to the first unconsumed `]`: scanning `S ++ ]rest`
with no `]` or newline inside `S` captures exactly `acc.reverse ++ S`. -/
theorem captureTo_through : ∀ (S : List Char) (acc rest : List Char),
    ']' ∉ S → '\n' ∉ S →
    captureTo acc (S ++ ']' :: rest) = some (acc.reverse ++ S)
  | [], acc, rest, _, _ => by simp [captureTo]
  | c :: S2, acc, rest, hbr, hnl => by
    have hc1 : c ≠ ']' := fun h => hbr (by simp [h])
    have hc2 : c ≠ '\n' := fun h => hnl (by simp [h])
    have hbr2 : ']' ∉ S2 := fun h => hbr (by simp [h])
    have hnl2 : '\n' ∉ S2 := fun h => hnl (by simp [h])
    show captureTo acc (c :: (S2 ++ ']' :: rest)) = some (acc.reverse ++ c :: S2)
    unfold captureTo
    rw [if_neg hc1, if_neg hc2, captureTo_through S2 (c :: acc) rest hbr2 hnl2]
    simp

/-- `HEADER_RE` matched at the start of `选股结果 [S]⟨rest⟩` captures exactly
`S` when `S` is non-empty and holds no `]` and no newline. -/
theorem headerMatchAt_terse (S rest : List Char)
    (hne : S ≠ []) (hbr : ']' ∉ S) (hnl : '\n' ∉ S) :
    headerMatchAt ("选股结果 [".data ++ (S ++ ']' :: rest)) = some S := by
  cases S with
  | nil => exact absurd rfl hne
  | cons c S2 =>
    have hc2 : c ≠ '\n' := fun h => hnl (by simp [h])
    have hbr2 : ']' ∉ S2 := fun h => hbr (by simp [h])
    have hnl2 : '\n' ∉ S2 := fun h => hnl (by simp [h])
    show (if c = '\n' then none else captureTo [c] (S2 ++ ']' :: rest)) = some (c :: S2)
    rw [if_neg hc2, captureTo_through S2 [c] rest hbr2 hnl2]
    simp

/-- `HEADER_RE` cannot match at a position whose first character is not `选`. -/
theorem headerMatchAt_ne_first (c : Char) (rest : List Char) (h : c ≠ '选') :
    headerMatchAt (c :: rest) = none := by
  unfold headerMatchAt
  rw [show matchLiteral "选股结果".data (c :: rest) =
      (if c = '选' then matchLiteral "股结果".data rest else none) from rfl]
  rw [if_neg h]

/-- The leftmost search steps over a position where the match fails. -/
theorem searchHeader_cons_of_fail (c : Char) (rest : List Char)
    (h : headerMatchAt (c :: rest) = none) :
    searchHeader (c :: rest) = searchHeader rest := by
  rw [searchHeader, h]

/-- The leftmost search steps over any run of `=` padding. -/
theorem searchHeader_replicate_eq (k : Nat) (cs : List Char) :
    searchHeader (List.replicate k '=' ++ cs) = searchHeader cs := by
  induction k with
  | zero => simp
  | succ n ih =>
    rw [List.replicate_succ, List.cons_append,
        searchHeader_cons_of_fail _ _ (headerMatchAt_ne_first '=' _ (by decide))]
    exact ih

/-- The search finds the header at the start of a terse header line. -/
theorem searchHeader_terse (S rest : List Char)
    (hne : S ≠ []) (hbr : ']' ∉ S) (hnl : '\n' ∉ S) :
    searchHeader ("选股结果 [".data ++ (S ++ ']' :: rest)) = some S := by
  have h := headerMatchAt_terse S rest hne hbr hnl
  show searchHeader ('选' :: ('股' :: '结' :: '果' :: ' ' :: '[' :: (S ++ ']' :: rest))) = some S
  unfold searchHeader
  rw [show headerMatchAt ('选' :: ('股' :: '结' :: '果' :: ' ' :: '[' :: (S ++ ']' :: rest))) =
      some S from h]

/-- Dropping leading whitespace from a list with a non-space head is a no-op. -/
theorem lstrip_cons_nonspace (c : Char) (T : List Char) (h : isPySpace c = false) :
    lstrip (c :: T) = c :: T := by
  unfold lstrip
  rw [List.dropWhile_cons]
  simp [h]

/-- Dropping trailing whitespace from a list with a non-space last element is
a no-op. -/
theorem rstrip_append_nonspace (A : List Char) (c : Char) (h : isPySpace c = false) :
    rstrip (A ++ [c]) = A ++ [c] := by
  unfold rstrip
  rw [List.reverse_append, List.reverse_singleton, List.singleton_append, List.dropWhile_cons]
  simp [h]

/-- The search finds the header inside a banner line, skipping the `=` padding
and the space before `选`. -/
theorem searchHeader_banner (k m : Nat) (S : List Char)
    (hne : S ≠ []) (hbr : ']' ∉ S) (hnl : '\n' ∉ S) :
    searchHeader (bannerHeader k m S) = some S := by
  unfold bannerHeader
  rw [searchHeader_replicate_eq]
  rw [show (" 选股结果 [".data ++ (S ++ ("] ".data ++ List.replicate m '='))) =
      ' ' :: ("选股结果 [".data ++ (S ++ ']' :: (' ' :: List.replicate m '='))) from rfl]
  rw [searchHeader_cons_of_fail _ _ (headerMatchAt_ne_first ' ' _ (by decide))]
  exact searchHeader_terse S (' ' :: List.replicate m '=') hne hbr hnl

/-- Stripping a terse header line is a no-op. -/
theorem pyStrip_terseHeader (S : List Char) :
    pyStrip (terseHeader S) = terseHeader S := by
  unfold terseHeader pyStrip
  rw [show "选股结果 [".data ++ (S ++ [']']) = ("选股结果 [".data ++ S) ++ [']'] from
      (List.append_assoc _ _ _).symm]
  rw [rstrip_append_nonspace _ ']' (by decide)]
  rw [show ("选股结果 [".data ++ S) ++ [']'] = '选' :: (("股结果 [".data ++ S) ++ [']'])
      from by simp]
  rw [lstrip_cons_nonspace _ _ (by decide)]

/-- Stripping a banner header line with at least one `=` on each side is a
no-op. -/
theorem pyStrip_bannerHeader (k m : Nat) (S : List Char) :
    pyStrip (bannerHeader (k + 1) (m + 1) S) = bannerHeader (k + 1) (m + 1) S := by
  unfold bannerHeader pyStrip
  rw [List.replicate_succ' m]
  simp only [← List.append_assoc]
  rw [rstrip_append_nonspace _ '=' (by decide)]
  rw [List.replicate_succ]
  simp only [List.cons_append]
  rw [lstrip_cons_nonspace _ _ (by decide)]

/-- C7 counterexample: the lazy bracket capture stops at the first `]`, so the
terse header line for the strategy name `A]B` sets the current strategy to
`A`, not to the trimmed `A]B` — the claim fails for names containing `]`. -/
theorem header_capture_stops_at_bracket :
    stepLine stInit (terseHeader "A]B".data) = (⟨some "A".data, none, false⟩, []) ∧
    "A".data ≠ pyStrip "A]B".data := by
  decide

/-- C7 amended: for every non-empty strategy name `S` containing no `]` (and
no newline — a line cannot hold one), both header spellings — the terse
`选股结果 [S]` and the banner `==== 选股结果 [S] ====` with any positive
number of `=` on each side — set the current strategy to the trimmed `S`,
reset the trade date and clear `expecting_picks`. -/
theorem header_both_forms_set_strategy (S : List Char) (k m : Nat) (st : ScanState)
    (hne : S ≠ []) (hbr : ']' ∉ S) (hnl : '\n' ∉ S) :
    stepLine st (terseHeader S) = (⟨some (pyStrip S), none, false⟩, []) ∧
    stepLine st (bannerHeader (k + 1) (m + 1) S) =
      (⟨some (pyStrip S), none, false⟩, []) := by
  constructor
  · have hsearch : searchHeader (terseHeader S) = some S := by
      unfold terseHeader
      exact searchHeader_terse S [] hne hbr hnl
    unfold stepLine
    rw [pyStrip_terseHeader]
    unfold stepNorm
    rw [hsearch]
  · have hsearch : searchHeader (bannerHeader (k + 1) (m + 1) S) = some S :=
      searchHeader_banner (k + 1) (m + 1) S hne hbr hnl
    unfold stepLine
    rw [pyStrip_bannerHeader]
    unfold stepNorm
    rw [hsearch]

/-- Witness for `header_both_forms_set_strategy` at the strategy `MACD金叉`
with four `=` on each banner side. -/
theorem header_both_forms_set_strategy_witness :
    ("MACD金叉".data ≠ ([] : List Char)) ∧ (']' ∉ "MACD金叉".data) ∧
    ('\n' ∉ "MACD金叉".data) ∧
    (stepLine stInit (terseHeader "MACD金叉".data) =
        (⟨some (pyStrip "MACD金叉".data), none, false⟩, []) ∧
     stepLine stInit (bannerHeader (3 + 1) (3 + 1) "MACD金叉".data) =
        (⟨some (pyStrip "MACD金叉".data), none, false⟩, [])) :=
  ⟨by decide, by decide, by decide,
   header_both_forms_set_strategy "MACD金叉".data 3 3 stInit
     (by decide) (by decide) (by decide)⟩

/-- Trailing-strip distributes over an append whose right part keeps at least
one character after stripping. -/
theorem rstrip_append_left (a b : List Char) (hb : rstrip b ≠ []) :
    rstrip (a ++ b) = a ++ rstrip b := by
  unfold rstrip
  rw [List.reverse_append, List.dropWhile_append]
  have hE : (b.reverse.dropWhile isPySpace).isEmpty = false := by
    cases h : b.reverse.dropWhile isPySpace with
    | nil => exact absurd (by unfold rstrip; rw [h]; rfl) hb
    | cons c t => rfl
  rw [hE]
  simp

/-- The log prefix parses off the front of any line it has been prepended to,
its final greedy `\\s+` also eating the line's own leading whitespace. -/
theorem matchLogPfx_prepend (m : List Char) :
    matchLogPfx (logPfx ++ m) = some (m.dropWhile isPySpace) := rfl

/-- Per-line prefix tolerance: prepending the log prefix to a line does not
change its normalized form, provided the line is not blank and its stripped
form does not itself begin with a log prefix. -/
theorem normalizePages_logPfx (l : List Char)
    (hne : pyStrip l ≠ []) (hnp : matchLogPfx (pyStrip l) = none) :
    normalizePages (logPfx ++ l) = normalizePages l := by
  have hrne : rstrip l ≠ [] := fun h => hne (by unfold pyStrip; rw [h]; rfl)
  have h1 : pyStrip (logPfx ++ l) = logPfx ++ rstrip l := by
    unfold pyStrip
    rw [rstrip_append_left logPfx l hrne]
    rw [show logPfx ++ rstrip l =
        '2' :: ("024-01-15 10:30:45,123 - INFO - ".data ++ rstrip l) from rfl]
    rw [lstrip_cons_nonspace _ _ (by decide)]
  have h3 : stripLogPfx (pyStrip (logPfx ++ l)) = lstrip (rstrip l) := by
    rw [h1]
    unfold stripLogPfx
    rw [matchLogPfx_prepend]
    rfl
  show pyStrip (stripLogPfx (pyStrip (logPfx ++ l))) = pyStrip (stripLogPfx (pyStrip l))
  rw [h3]
  unfold stripLogPfx
  rw [hnp]
  rfl

/-- Prefix tolerance lifted to the whole line scan of the pages copy. -/
theorem scanPages_map_logPfx : ∀ (lines : List (List Char)) (st : ScanState),
    (∀ l ∈ lines, pyStrip l ≠ [] ∧ matchLogPfx (pyStrip l) = none) →
    scanLines stepLinePages st (lines.map (fun l => logPfx ++ l)) =
      scanLines stepLinePages st lines
  | [], _, _ => rfl
  | l :: ls, st, h => by
    have hl := h l (by simp)
    have hstep : stepLinePages st (logPfx ++ l) = stepLinePages st l := by
      unfold stepLinePages
      rw [normalizePages_logPfx l hl.1 hl.2]
    simp only [List.map_cons, scanLines]
    rw [hstep, scanPages_map_logPfx ls _ (fun x hx => h x (List.mem_cons_of_mem _ hx))]

/-- C5 counterexample: a report containing a blank line inside the pick area
(tolerated by the parser) parses differently once the log prefix is prepended
to every line — the prefixed blank line loses its trailing space to the outer
strip, no longer matches `LOG_PREFIX_RE`, and is consumed as a comma-bearing
pick line, so the real code `000001` is never emitted. -/
theorem pages_log_prefix_breaks_on_blank :
    ((⟨"2024-01-15".data, "MACD金叉".data, "000001".data⟩ : HitRecord) ∈
        parseLinesPages linesC5) ∧
    ((⟨"2024-01-15".data, "MACD金叉".data, "000001".data⟩ : HitRecord) ∉
        parseLinesPages (linesC5.map (fun l => logPfx ++ l))) := by
  decide

/-- C5 amended: for every report content all of whose lines are non-blank and
do not themselves begin (after stripping) with a log-line prefix, the pages
parser extracts the same rows — hence the same HitRecord set — from the
content with the fixed log prefix prepended to every line as from the content
without it. -/
theorem pages_log_prefix_tolerance (lines : List (List Char))
    (h : ∀ l ∈ lines, pyStrip l ≠ [] ∧ matchLogPfx (pyStrip l) = none) :
    parseLinesPages (lines.map (fun l => logPfx ++ l)) = parseLinesPages lines := by
  unfold parseLinesPages
  exact scanPages_map_logPfx lines stInit h

/-- Witness for `pages_log_prefix_tolerance` at the blank-free scenario
content. -/
theorem pages_log_prefix_tolerance_witness :
    (∀ l ∈ linesC5ok, pyStrip l ≠ [] ∧ matchLogPfx (pyStrip l) = none) ∧
    parseLinesPages (linesC5ok.map (fun l => logPfx ++ l)) = parseLinesPages linesC5ok :=
  ⟨by decide, pages_log_prefix_tolerance linesC5ok (by decide)⟩
